import Mathlib

/-!
The Minimal Usable Foreign Data Wrapper (mufdw).

A shallow embedding of `mufdw.c` and the properties of its planner and
executor callbacks.

Conventions of the embedding:

* `ereport(ERROR, ...)` / `elog(ERROR, ...)` do not return: a function that can
  raise yields an `Outcome`, and a stateful function yields the outcome
  together with the state at the point where control left the function.
* Constants, macros and functions of the host engine that `mufdw.c` only uses
  (`BLCKSZ`, `MAXALIGN`, `quote_identifier`, ...) are fields of `Host`.
* The session bridge (SPI) is the state type `SPI`; every bridge call is
  recorded in `SPI.log`.
* `double` quantities (`Cost`, `Cardinality`) are exact rationals.
-/

namespace Mufdw

/-! ## Errors and outcomes -/

/-- SQLSTATE classes used by `mufdw.c`: the code given to `errcode(...)`, and
the code `elog(ERROR, ...)` reports. -/
inductive SqlErrCode where
  | ERRCODE_INVALID_PARAMETER_VALUE
  | ERRCODE_INTERNAL_ERROR
deriving DecidableEq, Repr

/-- The report of an `ereport(ERROR, (errcode(c), errmsg(m)))`. -/
structure ErrorData where
  sqlerrcode : SqlErrCode
  message : String
deriving DecidableEq, Repr

/-- How a call ends: it returns a value, it raises an ERROR, or it runs into
undefined behaviour of C (NULL dereference, division by zero). -/
inductive Outcome (α : Type) where
  | ok (a : α)
  | error (e : ErrorData)
  | fault
deriving DecidableEq, Repr

/-- The call returned normally. -/
def Outcome.isOk {α : Type} : Outcome α → Bool
  | .ok _ => true
  | _ => false

/-- The call raised an ERROR. -/
def Outcome.isError {α : Type} : Outcome α → Bool
  | .error _ => true
  | _ => false

/-! ## Planner data -/

abbrev Oid := Nat

/-- An option `name 'value'` of a foreign table, server or user mapping
(`DefElem` with a string argument). -/
structure DefElem where
  defname : String
  arg : String
deriving DecidableEq, Repr

/-- The `fdw_private` of a base relation. `palloc0` leaves both fields NULL. -/
structure mufdwRelationInfo where
  table_name : Option String
  schema_name : Option String
deriving DecidableEq, Repr

/-- The arguments `mufdwGetForeignPaths` hands to `create_foreignscan_path`. -/
structure ForeignPath where
  pathtarget : Option Unit
  rows : ℚ
  startup_cost : ℚ
  total_cost : ℚ
  pathkeys : List Nat
  required_outer : List Nat
  fdw_outerpath : Option Unit
  fdw_private : List String
deriving DecidableEq

/-- The fields of `RelOptInfo` that `mufdw.c` reads or writes. `pathlist`
holds the paths submitted through `add_path`, oldest first. -/
structure RelOptInfo where
  relid : Nat
  pages : Nat
  tuples : ℚ
  rows : ℚ
  reltarget_width : Int
  lateral_relids : List Nat
  fdw_private : Option mufdwRelationInfo
  pathlist : List ForeignPath
deriving DecidableEq

/-- A restriction clause as the planner passes it: the expression and the
`pseudoconstant` flag of its `RestrictInfo` wrapper. -/
structure RestrictInfo where
  clause : String
  pseudoconstant : Bool
deriving DecidableEq, Repr

/-- The arguments `mufdwGetForeignPlan` hands to `make_foreignscan`. -/
structure ForeignScan where
  qptlist : List String
  qpqual : List String
  scanrelid : Nat
  fdw_exprs : List String
  fdw_private : List String
  fdw_scan_tlist : List String
  fdw_recheck_quals : List String
  outer_plan : Option Unit
deriving DecidableEq, Repr

/-- What `mufdw.c` takes from the host engine: build constants, macros,
configuration variables and library functions. -/
structure Host where
  ForeignTableRelationId : Oid
  BLCKSZ : Nat
  SizeofHeapTupleHeader : Nat
  MAXALIGN : Nat → Nat
  EXEC_FLAG_EXPLAIN_ONLY : Nat
  seq_page_cost : ℚ
  cpu_tuple_cost : ℚ
  GetForeignTable : Oid → List DefElem
  set_baserel_size_estimates : RelOptInfo → RelOptInfo
  quote_identifier : String → String
  extract_actual_clauses : List RestrictInfo → Bool → List String

/-! ## Option validator -/

/-- The `foreach` loop of `mufdw_validator`, with `opt_cnt` as accumulator. -/
def validator_foreach (host : Host) (catalog : Oid) : List DefElem → Nat → Outcome Nat
  | [], opt_cnt => .ok opt_cnt
  | d :: rest, opt_cnt =>
    if catalog ≠ host.ForeignTableRelationId then
      .error ⟨.ERRCODE_INVALID_PARAMETER_VALUE,
        "option \"" ++ d.defname ++ "\" is not allowed in this context"⟩
    else if d.defname ≠ "table_name" ∧ d.defname ≠ "schema_name" then
      .error ⟨.ERRCODE_INVALID_PARAMETER_VALUE,
        "option \"" ++ d.defname ++ "\" is unknown"⟩
    else validator_foreach host catalog rest (opt_cnt + 1)

/-- The validator `mufdw_validator(options, catalog)`. -/
def mufdw_validator (host : Host) (options_list : List DefElem) (catalog : Oid) : Outcome Unit :=
  match validator_foreach host catalog options_list 0 with
  | .ok opt_cnt =>
    if catalog = host.ForeignTableRelationId ∧ opt_cnt ≠ 2 then
      .error ⟨.ERRCODE_INVALID_PARAMETER_VALUE,
        "both table_name and table_schema options should be set"⟩
    else .ok ()
  | .error e => .error e
  | .fault => .fault

/-- An option name the validator recognises. -/
def recognised (d : DefElem) : Prop :=
  d.defname = "table_name" ∨ d.defname = "schema_name"

instance (d : DefElem) : Decidable (recognised d) := by
  unfold recognised; infer_instance

/-- The three rejection conditions of the validator contract. -/
def rejects (host : Host) (options_list : List DefElem) (catalog : Oid) : Prop :=
  (catalog ≠ host.ForeignTableRelationId ∧ options_list ≠ []) ∨
  (∃ d ∈ options_list, ¬ recognised d) ∨
  (catalog = host.ForeignTableRelationId ∧ options_list.length ≠ 2)


/-! ## Relation size estimator -/

/-- The `foreach` loop over `table->options` in `mufdwGetForeignRelSize`: a
later option of the same name overwrites an earlier one. -/
def apply_table_options : List DefElem → mufdwRelationInfo → mufdwRelationInfo
  | [], fpinfo => fpinfo
  | d :: rest, fpinfo =>
    if d.defname = "table_name" then
      apply_table_options rest { fpinfo with table_name := some d.arg }
    else if d.defname = "schema_name" then
      apply_table_options rest { fpinfo with schema_name := some d.arg }
    else apply_table_options rest fpinfo

/-- Conversion of a C `int` to the 64-bit `uintptr_t` that `MAXALIGN` yields. -/
def to_uintptr (i : Int) : Nat := (i % (2 ^ 64 : Int)).toNat

/-- The divisor `baserel->reltarget->width + MAXALIGN(SizeofHeapTupleHeader)`,
evaluated in `uintptr_t`. -/
def tuple_size (host : Host) (width : Int) : Nat :=
  (to_uintptr width + host.MAXALIGN host.SizeofHeapTupleHeader) % 2 ^ 64

/-- The estimator `mufdwGetForeignRelSize(root, baserel, foreigntableid)`; the
result is the relation as `set_baserel_size_estimates` leaves it. A zero
divisor is a fault. -/
def mufdwGetForeignRelSize (host : Host) (baserel : RelOptInfo) (foreigntableid : Oid) :
    Outcome RelOptInfo :=
  let fpinfo := apply_table_options (host.GetForeignTable foreigntableid) ⟨none, none⟩
  let baserel := { baserel with fdw_private := some fpinfo }
  if baserel.tuples < 0 then
    if tuple_size host baserel.reltarget_width = 0 then .fault
    else
      .ok (host.set_baserel_size_estimates
        { baserel with
          pages := 10
          tuples := (((10 * host.BLCKSZ) % 2 ^ 64 / tuple_size host baserel.reltarget_width : Nat) : ℚ) })
  else .ok (host.set_baserel_size_estimates baserel)

/-! ## Path proposer -/

/-- The path node `create_foreignscan_path` builds from its arguments. -/
def create_foreignscan_path (target : Option Unit) (rows startup_cost total_cost : ℚ)
    (pathkeys required_outer : List Nat) (fdw_outerpath : Option Unit)
    (fdw_private : List String) : ForeignPath :=
  ⟨target, rows, startup_cost, total_cost, pathkeys, required_outer, fdw_outerpath, fdw_private⟩

/-- Submission of a path with `add_path`, recorded at the end of `pathlist`. -/
def add_path (parent_rel : RelOptInfo) (new_path : ForeignPath) : RelOptInfo :=
  { parent_rel with pathlist := parent_rel.pathlist ++ [new_path] }

/-- The proposer `mufdwGetForeignPaths(root, baserel, foreigntableid)`. -/
def mufdwGetForeignPaths (host : Host) (baserel : RelOptInfo) (_foreigntableid : Oid) :
    RelOptInfo :=
  let total_cost : ℚ := 0
  let total_cost := total_cost + host.seq_page_cost * (baserel.pages : ℚ)
  let total_cost := total_cost + host.cpu_tuple_cost * baserel.tuples
  let path := create_foreignscan_path none baserel.rows 1 total_cost [] baserel.lateral_relids none []
  add_path baserel path

/-! ## Plan builder -/

/-- The plan node `make_foreignscan` builds from its arguments. -/
def make_foreignscan (qptlist qpqual : List String) (scanrelid : Nat)
    (fdw_exprs fdw_private fdw_scan_tlist fdw_recheck_quals : List String)
    (outer_plan : Option Unit) : ForeignScan :=
  ⟨qptlist, qpqual, scanrelid, fdw_exprs, fdw_private, fdw_scan_tlist, fdw_recheck_quals,
    outer_plan⟩

/-- The plan builder `mufdwGetForeignPlan`. A NULL `fdw_private`, or a NULL
qualifier handed to `quote_identifier`, is a fault. -/
def mufdwGetForeignPlan (host : Host) (foreignrel : RelOptInfo) (_foreigntableid : Oid)
    (_best_path : ForeignPath) (tlist : List String) (scan_clauses : List RestrictInfo)
    (outer_plan : Option Unit) : Outcome ForeignScan :=
  match foreignrel.fdw_private with
  | none => .fault
  | some fpinfo =>
    let scan_clauses := host.extract_actual_clauses scan_clauses false
    match fpinfo.schema_name, fpinfo.table_name with
    | some schema_name, some table_name =>
      let query := "SELECT * FROM " ++ host.quote_identifier schema_name ++ "." ++
        host.quote_identifier table_name
      .ok (make_foreignscan tlist scan_clauses foreignrel.relid [] [query] [] [] outer_plan)
    | _, _ => .fault

/-! ## A concrete host -/

/-- A host with the stock build settings: 8 kB blocks, 8-byte maximum
alignment, a 23-byte tuple header, the default planner costs, a finishing
routine that clamps the row estimate of an unrestricted relation, and a
`quote_identifier` that always quotes. -/
def stockHost : Host where
  ForeignTableRelationId := 3118
  BLCKSZ := 8192
  SizeofHeapTupleHeader := 23
  MAXALIGN := fun len => (len + 7) / 8 * 8
  EXEC_FLAG_EXPLAIN_ONLY := 1
  seq_page_cost := 1
  cpu_tuple_cost := 1 / 100
  GetForeignTable := fun _ => [⟨"schema_name", "public"⟩, ⟨"table_name", "items"⟩]
  set_baserel_size_estimates := fun rel =>
    { rel with rows := if rel.tuples ≤ 1 then 1 else rel.tuples }
  quote_identifier := fun ident =>
    "\"" ++ ident.replace "\"" "\"\"" ++ "\""
  extract_actual_clauses := fun l pseudoconstant =>
    (l.filter (fun r => r.pseudoconstant == pseudoconstant)).map (fun r => r.clause)

/-- A relation without statistics (`tuples = -1`) and a 100000-byte row. -/
def wideRel : RelOptInfo :=
  ⟨1, 0, -1, 0, 100000, [], none, []⟩

/-- A relation without statistics (`tuples = -1`) and a 32-byte row. -/
def narrowRel : RelOptInfo :=
  ⟨1, 0, -1, 0, 32, [], none, []⟩

/-- A fetched row: one value or NULL per column. -/
abbrev Row := List (Option String)

/-- Modelled from the spec: the remote side behind the bridge calls
`prepare(query) -> plan_handle | error` and
`open_cursor(plan_handle) -> cursor_handle | error`: whether a query text can
be prepared, and the rows its cursor produces (or that the cursor cannot be
opened). The remote side may differ from one callback to the next. -/
structure Remote where
  prepare : String → Bool
  cursor_open : String → Option (List Row)

/-- Modelled from the spec: a cursor registered with the bridge, with the name
it is found by, the query it was opened for and the rows not yet fetched. -/
structure Portal where
  name : Nat
  query : String
  pending : List Row
deriving DecidableEq, Repr

/-- The bridge calls `mufdw.c` makes. -/
inductive SPICall where
  | connect
  | prepare (query : String)
  | cursor_open (query : String)
  | cursor_find (name : Option Nat)
  | cursor_fetch (name : Nat)
  | cursor_close (name : Nat)
  | finish
deriving DecidableEq, Repr

/-- Modelled from the spec: the state of the session bridge: the nesting depth
of scoped sessions, the registry of open cursors, the counter that names new
cursors, and the calls made so far. -/
structure SPI where
  depth : Nat
  portals : List Portal
  unnamed_portal_count : Nat
  log : List SPICall
deriving DecidableEq, Repr

/-- The first registered cursor of the given name. -/
def find_portal (name : Nat) : List Portal → Option Portal
  | [] => none
  | p :: ps => if p.name = name then some p else find_portal name ps

/-- The registry after the first cursor of the given name moved one row forward. -/
def advance_portal (name : Nat) : List Portal → List Portal
  | [] => []
  | p :: ps =>
    if p.name = name then { p with pending := p.pending.tail } :: ps
    else p :: advance_portal name ps

/-- The registry without the first cursor of the given name. -/
def drop_portal (name : Nat) : List Portal → List Portal
  | [] => []
  | p :: ps => if p.name = name then ps else p :: drop_portal name ps

/-- A cursor name above the counter and above every registered name. -/
def fresh_name (spi : SPI) : Nat :=
  spi.portals.foldr (fun p m => max p.name m) spi.unnamed_portal_count + 1

/-- Modelled from the spec: opening a scoped session. -/
def SPI_connect (spi : SPI) : SPI :=
  { spi with depth := spi.depth + 1, log := spi.log ++ [.connect] }

/-- Modelled from the spec: closing a scoped session. -/
def SPI_finish (spi : SPI) : SPI :=
  { spi with depth := spi.depth - 1, log := spi.log ++ [.finish] }

/-- Modelled from the spec: `prepare(query) -> plan_handle | error`; the plan
handle is the query text, `none` is the NULL result. -/
def SPI_prepare (env : Remote) (query : String) (spi : SPI) : Option String × SPI :=
  (if env.prepare query then some query else none, { spi with log := spi.log ++ [.prepare query] })

/-- Modelled from the spec: `open_cursor(plan_handle) -> cursor_handle | error`;
a new cursor gets a fresh name and all rows of the query pending, `none` is the
NULL result. -/
def SPI_cursor_open (env : Remote) (plan : String) (spi : SPI) : Option Portal × SPI :=
  match env.cursor_open plan with
  | none => (none, { spi with log := spi.log ++ [.cursor_open plan] })
  | some rows =>
    let portal : Portal := ⟨fresh_name spi, plan, rows⟩
    (some portal,
      { spi with
        portals := portal :: spi.portals
        unnamed_portal_count := fresh_name spi
        log := spi.log ++ [.cursor_open plan] })

/-- Modelled from the spec: `find(cursor_handle) -> cursor | absent`; a NULL
name finds nothing. -/
def SPI_cursor_find (name : Option Nat) (spi : SPI) : Option Portal × SPI :=
  (match name with
    | none => none
    | some n => find_portal n spi.portals,
   { spi with log := spi.log ++ [.cursor_find name] })

/-- Modelled from the spec: `fetch(cursor_handle, n) -> rows` with `n = 1`,
forward: the rows fetched (`SPI_processed` is their number), the cursor moved
past them. -/
def SPI_cursor_fetch (portal : Portal) (spi : SPI) : List Row × SPI :=
  (portal.pending.take 1,
   { spi with
     portals := advance_portal portal.name spi.portals
     log := spi.log ++ [.cursor_fetch portal.name] })

/-- Modelled from the spec: `close(cursor_handle)`. -/
def SPI_cursor_close (portal : Portal) (spi : SPI) : SPI :=
  { spi with
    portals := drop_portal portal.name spi.portals
    log := spi.log ++ [.cursor_close portal.name] }

/-! ## Cursor-backed scan executor -/

/-- The per-scan state `mufdwScanState`. `portal_name` is the pointer to the
cursor name: `none` is NULL; `pfree` of the name leaves the pointer as it is. -/
structure mufdwScanState where
  query : String
  portal_name : Option Nat
deriving DecidableEq, Repr

/-- The fields of `ForeignScanState` that `mufdw.c` uses: the plan's private
list, `fdw_state`, and the contents of the scan tuple slot (`none` is the
cleared slot). -/
structure ForeignScanState where
  fdw_private : List String
  fdw_state : Option mufdwScanState
  ss_ScanTupleSlot : Option Row
deriving DecidableEq, Repr

/-- The executor state a callback runs in: the scan node and the bridge. -/
structure Exec where
  node : ForeignScanState
  spi : SPI
deriving DecidableEq, Repr

/-- The `TupleTableSlot *` a callback returns: NULL, or the scan tuple slot
with its contents. -/
inductive SlotPtr where
  | null
  | slot (contents : Option Row)
deriving DecidableEq, Repr

/-- The end-of-stream test `TupIsNull` of the executor. -/
def TupIsNull : SlotPtr → Bool
  | .null => true
  | .slot none => true
  | .slot (some _) => false

/-- The helper `open_new_cursor(query)`. An ERROR leaves the function at the
`elog` call. -/
def open_new_cursor (env : Remote) (query : String) (spi : SPI) : Outcome Nat × SPI :=
  let spi := SPI_connect spi
  match SPI_prepare env query spi with
  | (none, spi) =>
    (.error ⟨.ERRCODE_INTERNAL_ERROR, "SPI_prepare(\"" ++ query ++ "\") failed"⟩, spi)
  | (some plan, spi) =>
    match SPI_cursor_open env plan spi with
    | (none, spi) =>
      (.error ⟨.ERRCODE_INTERNAL_ERROR, "SPI_cursor_open(\"" ++ query ++ "\") failed"⟩, spi)
    | (some portal, spi) =>
      let portal_name := portal.name
      let spi := SPI_finish spi
      (.ok portal_name, spi)

/-- The helper `close_old_cursor(fsstate)`. -/
def close_old_cursor (fsstate : mufdwScanState) (spi : SPI) : SPI :=
  match fsstate.portal_name with
  | some name =>
    let spi := SPI_connect spi
    match SPI_cursor_find (some name) spi with
    | (some portal, spi) => SPI_finish (SPI_cursor_close portal spi)
    | (none, spi) => SPI_finish spi
  | none => spi

/-- The callback `mufdwBeginForeignScan(node, eflags)`. -/
def mufdwBeginForeignScan (host : Host) (env : Remote) (ex : Exec) (eflags : Nat) :
    Outcome Unit × Exec :=
  if eflags &&& host.EXEC_FLAG_EXPLAIN_ONLY ≠ 0 then (.ok (), ex)
  else
    match ex.node.fdw_private with
    | [] => (.fault, ex)
    | query :: _ =>
      let fsstate : mufdwScanState := ⟨query, none⟩
      let node := { ex.node with fdw_state := some fsstate }
      match open_new_cursor env fsstate.query ex.spi with
      | (.ok name, spi) =>
        (.ok (), ⟨{ node with fdw_state := some { fsstate with portal_name := some name } }, spi⟩)
      | (.error e, spi) => (.error e, ⟨node, spi⟩)
      | (.fault, spi) => (.fault, ⟨node, spi⟩)

/-- The callback `mufdwReScanForeignScan(node)`. -/
def mufdwReScanForeignScan (env : Remote) (ex : Exec) : Outcome Unit × Exec :=
  match ex.node.fdw_state with
  | none => (.fault, ex)
  | some fsstate =>
    let spi := close_old_cursor fsstate ex.spi
    match open_new_cursor env fsstate.query spi with
    | (.ok name, spi) =>
      (.ok (), ⟨{ ex.node with fdw_state := some { fsstate with portal_name := some name } }, spi⟩)
    | (.error e, spi) => (.error e, ⟨ex.node, spi⟩)
    | (.fault, spi) => (.fault, ⟨ex.node, spi⟩)

/-- The callback `mufdwIterateForeignScan(node)`. -/
def mufdwIterateForeignScan (ex : Exec) : Outcome SlotPtr × Exec :=
  match ex.node.fdw_state with
  | none => (.fault, ex)
  | some fsstate =>
    let node := { ex.node with ss_ScanTupleSlot := none }
    let spi := SPI_connect ex.spi
    match SPI_cursor_find fsstate.portal_name spi with
    | (some portal, spi) =>
      match SPI_cursor_fetch portal spi with
      | ([], spi) => (.ok .null, ⟨node, SPI_finish spi⟩)
      | (tuple :: _, spi) =>
        (.ok (.slot (some tuple)), ⟨{ node with ss_ScanTupleSlot := some tuple }, SPI_finish spi⟩)
    | (none, spi) => (.ok (.slot node.ss_ScanTupleSlot), ⟨node, SPI_finish spi⟩)

/-- The callback `mufdwEndForeignScan(node)`: an empty body. -/
def mufdwEndForeignScan (ex : Exec) : Exec := ex

/-! ## Driving the scan -/

/-- A callback the executor may invoke after Begin. -/
inductive ScanCall where
  | Iterate
  | ReScan
  | End
deriving DecidableEq, Repr

/-- One callback, its result dropped. -/
def call (env : Remote) : ScanCall → Exec → Outcome Unit × Exec
  | .Iterate, ex =>
    match mufdwIterateForeignScan ex with
    | (.ok _, ex) => (.ok (), ex)
    | (.error e, ex) => (.error e, ex)
    | (.fault, ex) => (.fault, ex)
  | .ReScan, ex => mufdwReScanForeignScan env ex
  | .End, ex => (.ok (), mufdwEndForeignScan ex)

/-- A sequence of callbacks, each with the remote side it runs against; the
sequence stops at the first callback that does not return. -/
def run : List (Remote × ScanCall) → Exec → Outcome Unit × Exec
  | [], ex => (.ok (), ex)
  | (env, c) :: rest, ex =>
    match call env c ex with
    | (.ok _, ex) => run rest ex
    | (.error e, ex) => (.error e, ex)
    | (.fault, ex) => (.fault, ex)

/-- The results of `n` successive Iterate calls. -/
def iterates : Nat → Exec → List (Outcome SlotPtr)
  | 0, _ => []
  | n + 1, ex => (mufdwIterateForeignScan ex).1 :: iterates n (mufdwIterateForeignScan ex).2

/-- Iterate until end-of-stream, collecting the rows; `none` when a call does
not return or when end-of-stream is not reached within `fuel` calls. -/
def drain : Nat → Exec → Option (List Row)
  | 0, _ => none
  | fuel + 1, ex =>
    match mufdwIterateForeignScan ex with
    | (.ok (.slot (some row)), ex) => (drain fuel ex).map (fun rows => row :: rows)
    | (.ok _, _) => some []
    | (_, _) => none

/-- The scan holds a cursor that is registered with the bridge, was opened for
the scan's query `q`, and has the rows `pending` left. -/
def HasCursor (ex : Exec) (q : String) (pending : List Row) : Prop :=
  ∃ name, ex.node.fdw_state = some ⟨q, some name⟩ ∧
    find_portal name ex.spi.portals = some ⟨name, q, pending⟩

/-- The ScanState invariant: a non-null handle names a cursor that is open in
the bridge and was opened for the scan's query. -/
def HandleValid (ex : Exec) : Prop :=
  ∀ fsstate, ex.node.fdw_state = some fsstate →
    ∀ name, fsstate.portal_name = some name →
      ∃ portal, find_portal name ex.spi.portals = some portal ∧ portal.query = fsstate.query

/-- The number of `SPI_connect` calls in a part of the log. -/
def connects (calls : List SPICall) : Nat := calls.count .connect

/-- The number of `SPI_finish` calls in a part of the log. -/
def finishes (calls : List SPICall) : Nat := calls.count .finish

/-- The names of the registered cursors, in order. -/
def portal_names (ps : List Portal) : List Nat := ps.map (fun p => p.name)

/-- No two registered cursors have the same name. -/
def RegistryDistinct (spi : SPI) : Prop := (portal_names spi.portals).Nodup

/-- What `SPI_cursor_find` yields for the handle of a scan state. -/
def lookup_handle (fsstate : mufdwScanState) (spi : SPI) : Option Portal :=
  match fsstate.portal_name with
  | none => none
  | some name => find_portal name spi.portals

/-- The scan has a state whose cursor is absent or has no row left. -/
def Exhausted (ex : Exec) : Prop :=
  ∃ fsstate, ex.node.fdw_state = some fsstate ∧
    (lookup_handle fsstate ex.spi = none ∨
      ∃ portal, lookup_handle fsstate ex.spi = some portal ∧ portal.pending = [])

/-! ## A concrete scan -/

/-- The query of the relation `schema_name=public, table_name=items`. -/
def itemsQuery : String := "SELECT * FROM public.items"

/-- Three remote rows. -/
def threeRows : List Row := [[some "1"], [some "2"], [some "3"]]

/-- A remote side on which every query prepares and yields the three rows. -/
def itemsRemote : Remote := ⟨fun _ => true, fun _ => some threeRows⟩

/-- A remote side on which no query can be prepared. -/
def brokenRemote : Remote := ⟨fun _ => false, fun _ => none⟩

/-- A bridge with no session, no cursor and an empty log. -/
def idleSPI : SPI := ⟨0, [], 0, []⟩

/-- The executor state before Begin for the plan of `itemsQuery`. -/
def itemsExec : Exec := ⟨⟨[itemsQuery], none, none⟩, idleSPI⟩

/-- The executor state after Begin on the three-row remote side. -/
def begunExec : Exec := (mufdwBeginForeignScan stockHost itemsRemote itemsExec 0).2

/-- The executor state after Begin and three Iterate calls. -/
def drainedExec : Exec :=
  (run [(itemsRemote, .Iterate), (itemsRemote, .Iterate), (itemsRemote, .Iterate)] begunExec).2

/-- The executor state after Begin and a ReScan whose prepare step fails. -/
def staleExec : Exec := (mufdwReScanForeignScan brokenRemote begunExec).2

/-! ### Lemmas on the validator loop -/

theorem validator_foreach_other (host : Host) (catalog : Oid)
    (hc : catalog ≠ host.ForeignTableRelationId) (d : DefElem) (rest : List DefElem) (n : Nat) :
    ∃ e, validator_foreach host catalog (d :: rest) n = .error e ∧
      e.sqlerrcode = .ERRCODE_INVALID_PARAMETER_VALUE := by
  simp [validator_foreach, hc]

theorem validator_foreach_table_ok (host : Host) (opts : List DefElem) (n : Nat)
    (h : ∀ d ∈ opts, recognised d) :
    validator_foreach host host.ForeignTableRelationId opts n = .ok (n + opts.length) := by
  induction opts generalizing n with
  | nil => simp [validator_foreach]
  | cons d rest ih =>
    have hd : recognised d := h d (List.mem_cons_self _ _)
    have hr : ∀ x ∈ rest, recognised x := fun x hx => h x (List.mem_cons_of_mem _ hx)
    have hnot : ¬ (d.defname ≠ "table_name" ∧ d.defname ≠ "schema_name") := by
      unfold recognised at hd; tauto
    simp only [validator_foreach, ne_eq, not_true_eq_false, if_false, hnot]
    rw [ih (n + 1) hr]
    simp only [List.length_cons]
    congr 1; omega

theorem validator_foreach_table_unknown (host : Host) (opts : List DefElem) (n : Nat)
    (h : ∃ d ∈ opts, ¬ recognised d) :
    ∃ e, validator_foreach host host.ForeignTableRelationId opts n = .error e ∧
      e.sqlerrcode = .ERRCODE_INVALID_PARAMETER_VALUE := by
  induction opts generalizing n with
  | nil => simp at h
  | cons d rest ih =>
    by_cases hd : recognised d
    · have hnot : ¬ (d.defname ≠ "table_name" ∧ d.defname ≠ "schema_name") := by
        unfold recognised at hd; tauto
      simp only [validator_foreach, ne_eq, not_true_eq_false, if_false, hnot]
      apply ih
      obtain ⟨x, hx, hxr⟩ := h
      rcases List.mem_cons.mp hx with rfl | hx
      · exact absurd hd hxr
      · exact ⟨x, hx, hxr⟩
    · have hyes : d.defname ≠ "table_name" ∧ d.defname ≠ "schema_name" := by
        unfold recognised at hd; tauto
      simp [validator_foreach, hyes]

theorem mufdw_validator_cases (host : Host) (opts : List DefElem) (catalog : Oid) :
    (rejects host opts catalog →
      ∃ e, mufdw_validator host opts catalog = .error e ∧
        e.sqlerrcode = .ERRCODE_INVALID_PARAMETER_VALUE) ∧
    (¬ rejects host opts catalog → mufdw_validator host opts catalog = .ok ()) := by
  by_cases hc : catalog = host.ForeignTableRelationId
  · subst hc
    by_cases hu : ∃ d ∈ opts, ¬ recognised d
    · obtain ⟨e, he, hcode⟩ := validator_foreach_table_unknown host opts 0 hu
      refine ⟨fun _ => ⟨e, ?_, hcode⟩, fun hn => absurd (Or.inr (Or.inl hu)) hn⟩
      simp [mufdw_validator, he]
    · have hall : ∀ d ∈ opts, recognised d := by
        intro d hd; by_contra hnr; exact hu ⟨d, hd, hnr⟩
      have hloop := validator_foreach_table_ok host opts 0 hall
      by_cases hlen : opts.length = 2
      · refine ⟨fun hr => ?_, fun _ => ?_⟩
        · rcases hr with ⟨h, _⟩ | h | ⟨_, h⟩
          · exact absurd rfl h
          · exact absurd h hu
          · exact absurd hlen h
        · simp [mufdw_validator, hloop, hlen]
      · refine ⟨fun _ => ⟨⟨.ERRCODE_INVALID_PARAMETER_VALUE,
            "both table_name and table_schema options should be set"⟩, ?_, rfl⟩,
          fun hn => absurd (Or.inr (Or.inr ⟨rfl, hlen⟩)) hn⟩
        simp [mufdw_validator, hloop, hlen]
  · cases opts with
    | nil =>
      refine ⟨fun hr => ?_, fun _ => ?_⟩
      · rcases hr with ⟨_, h⟩ | ⟨d, hd, _⟩ | ⟨h, _⟩
        · exact absurd rfl h
        · simp at hd
        · exact absurd h hc
      · simp [mufdw_validator, validator_foreach, hc]
    | cons d rest =>
      obtain ⟨e, he, hcode⟩ := validator_foreach_other host catalog hc d rest 0
      refine ⟨fun _ => ⟨e, ?_, hcode⟩, fun hn => absurd (Or.inl ⟨hc, by simp⟩) hn⟩
      simp [mufdw_validator, he]

/-- C1: `mufdw_validator` raises an invalid-parameter error exactly when (a) the
catalog is not the foreign-table catalog and the list is non-empty, or (b) some
option name is neither `table_name` nor `schema_name`, or (c) the catalog is
the foreign-table catalog and the number of options is not 2; in every other
case it returns without error. -/
theorem mufdw_validator_contract (host : Host) (opts : List DefElem) (catalog : Oid) :
    ((∃ e, mufdw_validator host opts catalog = .error e ∧
        e.sqlerrcode = .ERRCODE_INVALID_PARAMETER_VALUE) ↔ rejects host opts catalog) ∧
    (mufdw_validator host opts catalog = .ok () ↔ ¬ rejects host opts catalog) := by
  obtain ⟨h1, h2⟩ := mufdw_validator_cases host opts catalog
  by_cases hr : rejects host opts catalog
  · obtain ⟨e, he, hcode⟩ := h1 hr
    refine ⟨⟨fun _ => hr, fun _ => ⟨e, he, hcode⟩⟩, ⟨fun hok => ?_, fun hn => absurd hr hn⟩⟩
    rw [he] at hok
    cases hok
  · have hok := h2 hr
    refine ⟨⟨fun ⟨e, he, _⟩ => ?_, fun h => absurd h hr⟩, ⟨fun _ => hr, fun _ => hok⟩⟩
    rw [hok] at he
    cases he

theorem to_uintptr_of_nonneg (w : Int) (h0 : 0 ≤ w) (h1 : w.toNat < 2 ^ 64) :
    to_uintptr w = w.toNat := by
  unfold to_uintptr
  have h2 : w % (2 ^ 64 : Int) = w := by
    apply Int.emod_eq_of_lt h0
    omega
  rw [h2]

theorem relsize_unknown_eq (host : Host) (baserel : RelOptInfo) (ftid : Oid)
    (hneg : baserel.tuples < 0) (hden : tuple_size host baserel.reltarget_width ≠ 0) :
    mufdwGetForeignRelSize host baserel ftid =
      .ok (host.set_baserel_size_estimates
        { baserel with
          fdw_private := some (apply_table_options (host.GetForeignTable ftid) ⟨none, none⟩)
          pages := 10
          tuples := (((10 * host.BLCKSZ) % 2 ^ 64 /
            tuple_size host baserel.reltarget_width : Nat) : ℚ) }) := by
  simp only [mufdwGetForeignRelSize]
  rw [if_pos hneg, if_neg hden]

/-- C3 (counterexample): for a relation without statistics whose row is 100000
bytes wide, the estimator sets the page count to 10 and the tuple count to
`81920 / 100024 = 0`, which is not strictly positive. -/
theorem mufdwGetForeignRelSize_wide_row :
    wideRel.tuples < 0 ∧
    ∃ r, mufdwGetForeignRelSize stockHost wideRel 1 = .ok r ∧
      r.pages = 10 ∧ r.tuples = 0 ∧ ¬ (0 < r.tuples) := by
  have h1 : wideRel.tuples < 0 := by norm_num [wideRel]
  have h2 : tuple_size stockHost wideRel.reltarget_width ≠ 0 := by decide
  have hq : (10 * stockHost.BLCKSZ) % 2 ^ 64 /
      tuple_size stockHost wideRel.reltarget_width = 0 := by decide
  refine ⟨h1, _, relsize_unknown_eq stockHost wideRel 1 h1 h2, ?_, ?_⟩
  · simp [stockHost]
  · rw [hq]; simp [stockHost]

/-- C3 (amended): for a relation whose incoming tuple count is negative and a
row width whose sum with `MAXALIGN(SizeofHeapTupleHeader)` is non-zero, the
estimator hands `set_baserel_size_estimates` the relation with page count 10
and tuple count `(10 * BLCKSZ) / (width + MAXALIGN(SizeofHeapTupleHeader))`
in integer division; that tuple count is strictly positive exactly when the
divisor is at most `10 * BLCKSZ`; and for a non-negative width without
wrap-around the quotient is the one of the plain natural numbers. -/
theorem mufdwGetForeignRelSize_unknown (host : Host) (baserel : RelOptInfo) (ftid : Oid)
    (hneg : baserel.tuples < 0) (hden : tuple_size host baserel.reltarget_width ≠ 0) :
    mufdwGetForeignRelSize host baserel ftid =
      .ok (host.set_baserel_size_estimates
        { baserel with
          fdw_private := some (apply_table_options (host.GetForeignTable ftid) ⟨none, none⟩)
          pages := 10
          tuples := (((10 * host.BLCKSZ) % 2 ^ 64 /
            tuple_size host baserel.reltarget_width : Nat) : ℚ) }) ∧
    ((0 : ℚ) < (((10 * host.BLCKSZ) % 2 ^ 64 /
        tuple_size host baserel.reltarget_width : Nat) : ℚ) ↔
      tuple_size host baserel.reltarget_width ≤ (10 * host.BLCKSZ) % 2 ^ 64) ∧
    (0 ≤ baserel.reltarget_width →
      baserel.reltarget_width.toNat + host.MAXALIGN host.SizeofHeapTupleHeader < 2 ^ 64 →
      10 * host.BLCKSZ < 2 ^ 64 →
      (10 * host.BLCKSZ) % 2 ^ 64 / tuple_size host baserel.reltarget_width =
        10 * host.BLCKSZ /
          (baserel.reltarget_width.toNat + host.MAXALIGN host.SizeofHeapTupleHeader)) := by
  refine ⟨relsize_unknown_eq host baserel ftid hneg hden, ?_, ?_⟩
  · rw [Nat.cast_pos, Nat.div_pos_iff hden]
  · intro h0 h1 h2
    have h3 : baserel.reltarget_width.toNat < 2 ^ 64 := by omega
    unfold tuple_size
    rw [to_uintptr_of_nonneg _ h0 h3, Nat.mod_eq_of_lt h1, Nat.mod_eq_of_lt h2]

/-- C3 (witness): with 8 kB blocks and a 32-byte row the estimate is 10 pages
and `81920 / 56 = 1462` tuples, a positive count. -/
theorem mufdwGetForeignRelSize_unknown_witness :
    narrowRel.tuples < 0 ∧ tuple_size stockHost narrowRel.reltarget_width ≠ 0 ∧
    0 ≤ narrowRel.reltarget_width ∧
    narrowRel.reltarget_width.toNat + stockHost.MAXALIGN stockHost.SizeofHeapTupleHeader
      < 2 ^ 64 ∧
    10 * stockHost.BLCKSZ < 2 ^ 64 ∧
    (∃ r, mufdwGetForeignRelSize stockHost narrowRel 1 = .ok r ∧
      r.pages = 10 ∧ r.tuples = 1462) ∧
    (10 * stockHost.BLCKSZ) % 2 ^ 64 / tuple_size stockHost narrowRel.reltarget_width =
      10 * stockHost.BLCKSZ /
        (narrowRel.reltarget_width.toNat + stockHost.MAXALIGN stockHost.SizeofHeapTupleHeader) := by
  have h1 : narrowRel.tuples < 0 := by norm_num [narrowRel]
  have h2 : tuple_size stockHost narrowRel.reltarget_width ≠ 0 := by decide
  have h3 : 0 ≤ narrowRel.reltarget_width := by decide
  have h4 : narrowRel.reltarget_width.toNat +
      stockHost.MAXALIGN stockHost.SizeofHeapTupleHeader < 2 ^ 64 := by decide
  have h5 : 10 * stockHost.BLCKSZ < 2 ^ 64 := by decide
  have hq : (10 * stockHost.BLCKSZ) % 2 ^ 64 /
      tuple_size stockHost narrowRel.reltarget_width = 1462 := by decide
  obtain ⟨h, _, hplain⟩ := mufdwGetForeignRelSize_unknown stockHost narrowRel 1 h1 h2
  refine ⟨h1, h2, h3, h4, h5, ⟨_, h, ?_, ?_⟩, hplain h3 h4 h5⟩
  · simp [stockHost]
  · rw [hq]; simp [stockHost]

/-- C10: `mufdwGetForeignPaths` submits exactly one path: the relation is
unchanged apart from its path list, which grows by one path that has no sort
keys, startup cost 1.0 and total cost
`seq_page_cost * pages + cpu_tuple_cost * tuples`, where `pages` and `tuples`
are the page count and the row count the size estimator left in the relation;
the path carries the relation's row estimate and lateral references and no
private list. -/
theorem mufdwGetForeignPaths_single_path (host : Host) (baserel : RelOptInfo) (ftid : Oid) :
    ∃ path : ForeignPath,
      mufdwGetForeignPaths host baserel ftid =
        { baserel with pathlist := baserel.pathlist ++ [path] } ∧
      (mufdwGetForeignPaths host baserel ftid).pathlist.length = baserel.pathlist.length + 1 ∧
      path.pathkeys = [] ∧
      path.startup_cost = 1 ∧
      path.total_cost =
        host.seq_page_cost * (baserel.pages : ℚ) + host.cpu_tuple_cost * baserel.tuples ∧
      path.rows = baserel.rows ∧
      path.required_outer = baserel.lateral_relids ∧
      path.fdw_private = [] := by
  refine ⟨create_foreignscan_path none baserel.rows 1
    (host.seq_page_cost * (baserel.pages : ℚ) + host.cpu_tuple_cost * baserel.tuples) []
    baserel.lateral_relids none [], ?_, ?_, rfl, rfl, rfl, rfl, rfl, rfl⟩
  · simp [mufdwGetForeignPaths, add_path]
  · simp [mufdwGetForeignPaths, add_path]

/-- C4: for all qualifiers `s` (schema) and `t` (table), whatever their
characters, and all restriction clauses, the plan builder returns a plan whose
private list is the single text
`"SELECT * FROM " ++ quote_identifier s ++ "." ++ quote_identifier t`; the text
is the same for any other clause list, the clauses only go to the local
qualifier list, and the parameter and remote-qualifier lists are empty. The
qualifiers are the ones the size estimator reads from the table options. -/
theorem mufdwGetForeignPlan_query (host : Host) (s t : String) (rel : RelOptInfo) (ftid : Oid)
    (best_path : ForeignPath) (tlist : List String) (clauses clauses2 : List RestrictInfo)
    (outer_plan : Option Unit) :
    mufdwGetForeignPlan host { rel with fdw_private := some ⟨some t, some s⟩ } ftid best_path
        tlist clauses outer_plan =
      .ok { qptlist := tlist
            qpqual := host.extract_actual_clauses clauses false
            scanrelid := rel.relid
            fdw_exprs := []
            fdw_private :=
              ["SELECT * FROM " ++ host.quote_identifier s ++ "." ++ host.quote_identifier t]
            fdw_scan_tlist := []
            fdw_recheck_quals := []
            outer_plan := outer_plan } ∧
    (∃ plan plan2,
      mufdwGetForeignPlan host { rel with fdw_private := some ⟨some t, some s⟩ } ftid best_path
        tlist clauses outer_plan = .ok plan ∧
      mufdwGetForeignPlan host { rel with fdw_private := some ⟨some t, some s⟩ } ftid best_path
        tlist clauses2 outer_plan = .ok plan2 ∧
      plan.fdw_private = plan2.fdw_private) ∧
    apply_table_options [⟨"schema_name", s⟩, ⟨"table_name", t⟩] ⟨none, none⟩ =
      ⟨some t, some s⟩ ∧
    apply_table_options [⟨"table_name", t⟩, ⟨"schema_name", s⟩] ⟨none, none⟩ =
      ⟨some t, some s⟩ := by
  refine ⟨rfl, ⟨_, _, rfl, rfl, rfl⟩, ?_, ?_⟩
  · simp [apply_table_options]
  · simp [apply_table_options]

/-! ## Registry lemmas -/

theorem find_portal_name (name : Nat) (ps : List Portal) (p : Portal)
    (h : find_portal name ps = some p) : p.name = name := by
  induction ps with
  | nil => simp [find_portal] at h
  | cons x xs ih =>
    unfold find_portal at h
    split at h
    · cases h; assumption
    · exact ih h

theorem find_advance_portal (name : Nat) (ps : List Portal) (p : Portal)
    (h : find_portal name ps = some p) :
    find_portal name (advance_portal name ps) = some { p with pending := p.pending.tail } := by
  induction ps with
  | nil => simp [find_portal] at h
  | cons x xs ih =>
    unfold find_portal at h
    unfold advance_portal
    split at h
    · rename_i hx
      cases h
      simp [find_portal, hx]
    · rename_i hx
      simp only [hx, if_false, find_portal]
      exact ih h

theorem advance_portal_at_end (name : Nat) (ps : List Portal) (p : Portal)
    (h : find_portal name ps = some p) (hp : p.pending = []) :
    advance_portal name ps = ps := by
  induction ps with
  | nil => rfl
  | cons x xs ih =>
    unfold find_portal at h
    unfold advance_portal
    split at h
    · rename_i hx
      cases h
      rw [if_pos hx]
      cases p
      simp_all
    · rename_i hx
      simp only [hx, if_false]
      rw [ih h]

/-! ## Executor lemmas -/

theorem open_new_cursor_ok (env : Remote) (q : String) (spi : SPI) (rows : List Row)
    (hp : env.prepare q = true) (ho : env.cursor_open q = some rows) :
    open_new_cursor env q spi =
      (.ok (fresh_name spi),
        { depth := spi.depth
          portals := ⟨fresh_name spi, q, rows⟩ :: spi.portals
          unnamed_portal_count := fresh_name spi
          log := spi.log ++ [.connect, .prepare q, .cursor_open q, .finish] }) := by
  simp [open_new_cursor, SPI_connect, SPI_prepare, SPI_cursor_open, SPI_finish, hp, ho,
    fresh_name]

theorem begin_cursor (host : Host) (env : Remote) (ex : Exec) (eflags : Nat) (q : String)
    (rest : List String) (rows : List Row)
    (hflag : eflags &&& host.EXEC_FLAG_EXPLAIN_ONLY = 0)
    (hplan : ex.node.fdw_private = q :: rest)
    (hp : env.prepare q = true) (ho : env.cursor_open q = some rows) :
    (mufdwBeginForeignScan host env ex eflags).1 = .ok () ∧
      HasCursor (mufdwBeginForeignScan host env ex eflags).2 q rows := by
  unfold mufdwBeginForeignScan
  simp only [hflag, ne_eq, not_true_eq_false, if_false, hplan, open_new_cursor_ok env q _ rows hp ho]
  exact ⟨trivial, fresh_name ex.spi, rfl, by simp [find_portal]⟩

theorem rescan_cursor (env : Remote) (ex : Exec) (q : String) (handle : Option Nat)
    (rows : List Row) (hstate : ex.node.fdw_state = some ⟨q, handle⟩)
    (hp : env.prepare q = true) (ho : env.cursor_open q = some rows) :
    (mufdwReScanForeignScan env ex).1 = .ok () ∧
      HasCursor (mufdwReScanForeignScan env ex).2 q rows := by
  unfold mufdwReScanForeignScan
  simp only [hstate, open_new_cursor_ok env q _ rows hp ho]
  exact ⟨trivial, _, rfl, by simp [find_portal]⟩

theorem iterate_cons (ex : Exec) (q : String) (r : Row) (rs : List Row)
    (h : HasCursor ex q (r :: rs)) :
    (mufdwIterateForeignScan ex).1 = .ok (.slot (some r)) ∧
      HasCursor (mufdwIterateForeignScan ex).2 q rs := by
  obtain ⟨name, hstate, hfind⟩ := h
  have hadv := find_advance_portal name ex.spi.portals _ hfind
  unfold mufdwIterateForeignScan
  simp only [hstate, SPI_cursor_find, SPI_connect, hfind, SPI_cursor_fetch, List.take_succ_cons,
    List.take_zero, SPI_finish]
  refine ⟨trivial, name, rfl, ?_⟩
  simpa using hadv

theorem iterate_nil (ex : Exec) (q : String) (h : HasCursor ex q []) :
    (mufdwIterateForeignScan ex).1 = .ok .null ∧
      HasCursor (mufdwIterateForeignScan ex).2 q [] := by
  obtain ⟨name, hstate, hfind⟩ := h
  have hadv := find_advance_portal name ex.spi.portals _ hfind
  unfold mufdwIterateForeignScan
  simp only [hstate, SPI_cursor_find, SPI_connect, hfind, SPI_cursor_fetch, List.take_nil,
    SPI_finish]
  refine ⟨trivial, name, rfl, ?_⟩
  simpa using hadv

theorem iterates_cursor (q : String) (rows : List Row) (ex : Exec) (h : HasCursor ex q rows) :
    iterates (rows.length + 1) ex =
      rows.map (fun r => Outcome.ok (SlotPtr.slot (some r))) ++ [.ok .null] := by
  induction rows generalizing ex with
  | nil =>
    simp [iterates, (iterate_nil ex q h).1]
  | cons r rs ih =>
    obtain ⟨h1, h2⟩ := iterate_cons ex q r rs h
    have hstep : iterates ((r :: rs).length + 1) ex =
        (mufdwIterateForeignScan ex).1 ::
          iterates (rs.length + 1) (mufdwIterateForeignScan ex).2 := rfl
    rw [hstep, h1, ih _ h2]
    rfl

theorem drain_cursor (q : String) (rows : List Row) (ex : Exec) (fuel : Nat)
    (h : HasCursor ex q rows) (hfuel : rows.length < fuel) : drain fuel ex = some rows := by
  induction rows generalizing ex fuel with
  | nil =>
    obtain ⟨n, rfl⟩ : ∃ n, fuel = n + 1 := ⟨fuel - 1, by simp at hfuel; omega⟩
    obtain ⟨h1, _⟩ := iterate_nil ex q h
    unfold drain
    generalize hit : mufdwIterateForeignScan ex = res at h1
    obtain ⟨o, ex2⟩ := res
    simp only at h1
    subst h1
    rfl
  | cons r rs ih =>
    obtain ⟨n, rfl⟩ : ∃ n, fuel = n + 1 := ⟨fuel - 1, by simp at hfuel; omega⟩
    obtain ⟨h1, h2⟩ := iterate_cons ex q r rs h
    have hn : rs.length < n := by simp at hfuel; omega
    have hrec := ih _ n h2 hn
    unfold drain
    generalize hit : mufdwIterateForeignScan ex = res at h1 h2 hrec
    obtain ⟨o, ex2⟩ := res
    simp only at h1 h2 hrec
    subst h1
    simp [hrec]

theorem call_cursor (env : Remote) (c : ScanCall) (ex : Exec) (q : String) (rows : List Row)
    (hp : env.prepare q = true) (ho : env.cursor_open q = some rows)
    (h : ∃ pending, HasCursor ex q pending) :
    (call env c ex).1 = .ok () ∧ ∃ pending, HasCursor (call env c ex).2 q pending := by
  obtain ⟨pending, hc⟩ := h
  cases c with
  | Iterate =>
    cases pending with
    | nil =>
      obtain ⟨h1, h2⟩ := iterate_nil ex q hc
      simp only [call]
      generalize hit : mufdwIterateForeignScan ex = res at h1 h2
      obtain ⟨o, ex2⟩ := res
      simp only at h1 h2
      subst h1
      exact ⟨rfl, [], h2⟩
    | cons r rs =>
      obtain ⟨h1, h2⟩ := iterate_cons ex q r rs hc
      simp only [call]
      generalize hit : mufdwIterateForeignScan ex = res at h1 h2
      obtain ⟨o, ex2⟩ := res
      simp only at h1 h2
      subst h1
      exact ⟨rfl, rs, h2⟩
  | ReScan =>
    obtain ⟨name, hstate, _⟩ := hc
    obtain ⟨h1, h2⟩ := rescan_cursor env ex q (some name) rows hstate hp ho
    exact ⟨h1, rows, h2⟩
  | End => exact ⟨rfl, pending, hc⟩

theorem run_cursor (env : Remote) (calls : List ScanCall) (ex : Exec) (q : String)
    (rows : List Row) (hp : env.prepare q = true) (ho : env.cursor_open q = some rows)
    (h : ∃ pending, HasCursor ex q pending) :
    (run (calls.map (fun c => (env, c))) ex).1 = .ok () ∧
      ∃ pending, HasCursor (run (calls.map (fun c => (env, c))) ex).2 q pending := by
  induction calls generalizing ex with
  | nil => exact ⟨rfl, h⟩
  | cons c cs ih =>
    obtain ⟨h1, h2⟩ := call_cursor env c ex q rows hp ho h
    simp only [List.map_cons, run]
    generalize hit : call env c ex = res at h1 h2
    obtain ⟨o, ex2⟩ := res
    simp only at h1 h2
    subst h1
    exact ih ex2 h2

theorem rescans_cursor (env : Remote) (k : Nat) (ex : Exec) (q : String)
    (rows : List Row) (hp : env.prepare q = true) (ho : env.cursor_open q = some rows)
    (h : ∃ pending, HasCursor ex q pending) :
    (run (List.replicate (k + 1) (env, ScanCall.ReScan)) ex).1 = .ok () ∧
      HasCursor (run (List.replicate (k + 1) (env, ScanCall.ReScan)) ex).2 q rows := by
  induction k generalizing ex with
  | zero =>
    obtain ⟨pending, name, hstate, _⟩ := h
    obtain ⟨h1, h2⟩ := rescan_cursor env ex q (some name) rows hstate hp ho
    simp only [List.replicate, run, call]
    generalize hit : mufdwReScanForeignScan env ex = res at h1 h2
    obtain ⟨o, ex2⟩ := res
    simp only at h1 h2
    subst h1
    exact ⟨rfl, h2⟩
  | succ k ih =>
    obtain ⟨pending, name, hstate, _⟩ := h
    obtain ⟨h1, h2⟩ := rescan_cursor env ex q (some name) rows hstate hp ho
    rw [List.replicate_succ]
    simp only [run, call]
    generalize hit : mufdwReScanForeignScan env ex = res at h1 h2
    obtain ⟨o, ex2⟩ := res
    simp only at h1 h2
    subst h1
    exact ih ex2 ⟨rows, h2⟩

theorem open_new_cursor_cases (env : Remote) (q : String) (spi : SPI) :
    (env.prepare q = false ∧
      open_new_cursor env q spi =
        (.error ⟨.ERRCODE_INTERNAL_ERROR, "SPI_prepare(\"" ++ q ++ "\") failed"⟩,
          { spi with depth := spi.depth + 1, log := spi.log ++ [.connect, .prepare q] })) ∨
    (env.prepare q = true ∧ env.cursor_open q = none ∧
      open_new_cursor env q spi =
        (.error ⟨.ERRCODE_INTERNAL_ERROR, "SPI_cursor_open(\"" ++ q ++ "\") failed"⟩,
          { spi with
            depth := spi.depth + 1
            log := spi.log ++ [.connect, .prepare q, .cursor_open q] })) ∨
    (env.prepare q = true ∧ ∃ rows, env.cursor_open q = some rows ∧
      open_new_cursor env q spi =
        (.ok (fresh_name spi),
          { depth := spi.depth
            portals := ⟨fresh_name spi, q, rows⟩ :: spi.portals
            unnamed_portal_count := fresh_name spi
            log := spi.log ++ [.connect, .prepare q, .cursor_open q, .finish] })) := by
  cases hp : env.prepare q with
  | false =>
    left
    simp [open_new_cursor, SPI_connect, SPI_prepare, hp]
  | true =>
    right
    cases ho : env.cursor_open q with
    | none =>
      left
      simp [open_new_cursor, SPI_connect, SPI_prepare, SPI_cursor_open, hp, ho]
    | some rows =>
      right
      exact ⟨rfl, rows, rfl, open_new_cursor_ok env q spi rows hp ho⟩

theorem close_old_cursor_cases (fsstate : mufdwScanState) (spi : SPI) :
    (fsstate.portal_name = none ∧ close_old_cursor fsstate spi = spi) ∨
    (∃ name, fsstate.portal_name = some name ∧ find_portal name spi.portals = none ∧
      close_old_cursor fsstate spi =
        { spi with log := spi.log ++ [.connect, .cursor_find (some name), .finish] }) ∨
    (∃ name portal, fsstate.portal_name = some name ∧
      find_portal name spi.portals = some portal ∧
      close_old_cursor fsstate spi =
        { spi with
          portals := drop_portal name spi.portals
          log := spi.log ++
            [.connect, .cursor_find (some name), .cursor_close name, .finish] }) := by
  cases hn : fsstate.portal_name with
  | none =>
    left
    simp [close_old_cursor, hn]
  | some name =>
    right
    cases hf : find_portal name spi.portals with
    | none =>
      left
      refine ⟨name, rfl, hf, ?_⟩
      simp [close_old_cursor, hn, SPI_connect, SPI_cursor_find, SPI_finish, hf]
    | some portal =>
      right
      have hname := find_portal_name _ _ _ hf
      refine ⟨name, portal, rfl, hf, ?_⟩
      simp [close_old_cursor, hn, SPI_connect, SPI_cursor_find, SPI_finish, hf,
        SPI_cursor_close, hname]

theorem iterate_cases (node : ForeignScanState) (fsstate : mufdwScanState) (spi : SPI) :
    (lookup_handle fsstate spi = none ∧
      mufdwIterateForeignScan ⟨{ node with fdw_state := some fsstate }, spi⟩ =
        (.ok (.slot none),
          ⟨{ node with fdw_state := some fsstate, ss_ScanTupleSlot := none },
            { spi with log := spi.log ++ [.connect, .cursor_find fsstate.portal_name, .finish] }⟩)) ∨
    (∃ portal, lookup_handle fsstate spi = some portal ∧ portal.pending = [] ∧
      mufdwIterateForeignScan ⟨{ node with fdw_state := some fsstate }, spi⟩ =
        (.ok .null,
          ⟨{ node with fdw_state := some fsstate, ss_ScanTupleSlot := none },
            { spi with
              portals := advance_portal portal.name spi.portals
              log := spi.log ++ [.connect, .cursor_find fsstate.portal_name,
                .cursor_fetch portal.name, .finish] }⟩)) ∨
    (∃ portal row rest, lookup_handle fsstate spi = some portal ∧
      portal.pending = row :: rest ∧
      mufdwIterateForeignScan ⟨{ node with fdw_state := some fsstate }, spi⟩ =
        (.ok (.slot (some row)),
          ⟨{ node with fdw_state := some fsstate, ss_ScanTupleSlot := some row },
            { spi with
              portals := advance_portal portal.name spi.portals
              log := spi.log ++ [.connect, .cursor_find fsstate.portal_name,
                .cursor_fetch portal.name, .finish] }⟩)) := by
  obtain ⟨q, handle⟩ := fsstate
  cases handle with
  | none =>
    left
    exact ⟨rfl, by simp [mufdwIterateForeignScan, SPI_cursor_find, SPI_connect, SPI_finish]⟩
  | some name =>
    cases hf : find_portal name spi.portals with
    | none =>
      left
      refine ⟨hf, ?_⟩
      simp [mufdwIterateForeignScan, SPI_cursor_find, SPI_connect, SPI_finish, hf]
    | some portal =>
      right
      cases hpend : portal.pending with
      | nil =>
        left
        refine ⟨portal, hf, hpend, ?_⟩
        simp [mufdwIterateForeignScan, SPI_cursor_find, SPI_connect, SPI_finish, hf,
          SPI_cursor_fetch, hpend]
      | cons row rest =>
        right
        refine ⟨portal, row, rest, hf, hpend, ?_⟩
        simp [mufdwIterateForeignScan, SPI_cursor_find, SPI_connect, SPI_finish, hf,
          SPI_cursor_fetch, hpend]

theorem exec_eta (ex : Exec) (fsstate : mufdwScanState)
    (h : ex.node.fdw_state = some fsstate) :
    ex = ⟨{ ex.node with fdw_state := some fsstate }, ex.spi⟩ := by
  obtain ⟨⟨priv, st, slot⟩, spi⟩ := ex
  simp only at h
  subst h
  rfl

theorem lookup_handle_some (fsstate : mufdwScanState) (spi : SPI) (portal : Portal)
    (h : lookup_handle fsstate spi = some portal) :
    fsstate.portal_name = some portal.name ∧
      find_portal portal.name spi.portals = some portal := by
  obtain ⟨q, handle⟩ := fsstate
  cases handle with
  | none => simp [lookup_handle] at h
  | some name =>
    have hf : find_portal name spi.portals = some portal := h
    have hname := find_portal_name _ _ _ hf
    subst hname
    exact ⟨rfl, hf⟩

theorem exhausted_of_end_of_stream (ex : Exec) (s : SlotPtr)
    (h : (mufdwIterateForeignScan ex).1 = .ok s) (hs : TupIsNull s = true) : Exhausted ex := by
  cases hstate : ex.node.fdw_state with
  | none =>
    simp [mufdwIterateForeignScan, hstate] at h
  | some fsstate =>
    rw [exec_eta ex fsstate hstate] at h
    rcases iterate_cases ex.node fsstate ex.spi with
      ⟨hnone, _⟩ | ⟨portal, hsome, hpend, _⟩ | ⟨portal, row, rest, _, _, heq⟩
    · exact ⟨fsstate, hstate, Or.inl hnone⟩
    · exact ⟨fsstate, hstate, Or.inr ⟨portal, hsome, hpend⟩⟩
    · rw [heq] at h
      simp only [Outcome.ok.injEq] at h
      subst h
      simp [TupIsNull] at hs

theorem iterate_of_exhausted (ex : Exec) (h : Exhausted ex) :
    (∃ s, (mufdwIterateForeignScan ex).1 = .ok s ∧ TupIsNull s = true) ∧
      Exhausted (mufdwIterateForeignScan ex).2 := by
  obtain ⟨fsstate, hstate, hl⟩ := h
  rw [exec_eta ex fsstate hstate]
  rcases iterate_cases ex.node fsstate ex.spi with
    ⟨hnone, heq⟩ | ⟨portal, hsome, hpend, heq⟩ | ⟨portal, row, rest, hsome, hpend, _⟩
  · rw [heq]
    exact ⟨⟨_, rfl, rfl⟩, fsstate, rfl, Or.inl hnone⟩
  · rw [heq]
    obtain ⟨_, hf⟩ := lookup_handle_some fsstate ex.spi portal hsome
    have hadv := advance_portal_at_end portal.name ex.spi.portals portal hf hpend
    refine ⟨⟨_, rfl, rfl⟩, fsstate, rfl, Or.inr ⟨portal, ?_, hpend⟩⟩
    simp only [hadv]
    exact hsome
  · rcases hl with hnone | ⟨p2, hs2, hp2⟩
    · rw [hnone] at hsome
      cases hsome
    · rw [hs2] at hsome
      cases hsome
      rw [hp2] at hpend
      cases hpend

theorem iterates_of_exhausted (n : Nat) (ex : Exec) (h : Exhausted ex) :
    ∀ o ∈ iterates n ex, ∃ s, o = .ok s ∧ TupIsNull s = true := by
  induction n generalizing ex with
  | zero => simp [iterates]
  | succ n ih =>
    obtain ⟨⟨s, h1, h2⟩, h3⟩ := iterate_of_exhausted ex h
    intro o ho
    simp only [iterates, List.mem_cons] at ho
    rcases ho with rfl | ho
    · exact ⟨s, h1, h2⟩
    · exact ih _ h3 o ho

theorem handle_valid_of_cursor (ex : Exec) (q : String) (pending : List Row)
    (h : HasCursor ex q pending) : HandleValid ex := by
  obtain ⟨name, hstate, hfind⟩ := h
  intro fsstate hfs n hn
  rw [hstate] at hfs
  cases hfs
  cases hn
  exact ⟨_, hfind, rfl⟩

theorem rescan_of_ok (env : Remote) (ex : Exec) (q : String) (handle : Option Nat)
    (hstate : ex.node.fdw_state = some ⟨q, handle⟩)
    (hok : (mufdwReScanForeignScan env ex).1 = .ok ()) :
    ∃ rows, HasCursor (mufdwReScanForeignScan env ex).2 q rows := by
  rcases open_new_cursor_cases env q (close_old_cursor ⟨q, handle⟩ ex.spi) with
    ⟨_, heq⟩ | ⟨_, _, heq⟩ | ⟨hp, rows, ho, _⟩
  · simp [mufdwReScanForeignScan, hstate, heq] at hok
  · simp [mufdwReScanForeignScan, hstate, heq] at hok
  · exact ⟨rows, (rescan_cursor env ex q handle rows hstate hp ho).2⟩

theorem begin_of_ok (host : Host) (env : Remote) (ex : Exec) (eflags : Nat)
    (hflag : eflags &&& host.EXEC_FLAG_EXPLAIN_ONLY = 0)
    (hok : (mufdwBeginForeignScan host env ex eflags).1 = .ok ()) :
    ∃ q rows, HasCursor (mufdwBeginForeignScan host env ex eflags).2 q rows := by
  cases hplan : ex.node.fdw_private with
  | nil => simp [mufdwBeginForeignScan, hflag, hplan] at hok
  | cons q rest =>
    rcases open_new_cursor_cases env q ex.spi with
      ⟨_, heq⟩ | ⟨_, _, heq⟩ | ⟨hp, rows, ho, _⟩
    · simp [mufdwBeginForeignScan, hflag, hplan, heq] at hok
    · simp [mufdwBeginForeignScan, hflag, hplan, heq] at hok
    · exact ⟨q, rows, (begin_cursor host env ex eflags q rest rows hflag hplan hp ho).2⟩

theorem call_of_ok (env : Remote) (c : ScanCall) (ex : Exec) (q : String)
    (h : ∃ pending, HasCursor ex q pending) (hok : (call env c ex).1 = .ok ()) :
    ∃ pending, HasCursor (call env c ex).2 q pending := by
  obtain ⟨pending, hc⟩ := h
  cases c with
  | Iterate =>
    cases pending with
    | nil =>
      obtain ⟨h1, h2⟩ := iterate_nil ex q hc
      simp only [call]
      generalize hit : mufdwIterateForeignScan ex = res at h1 h2
      obtain ⟨o, ex2⟩ := res
      simp only at h1 h2
      subst h1
      exact ⟨[], h2⟩
    | cons r rs =>
      obtain ⟨h1, h2⟩ := iterate_cons ex q r rs hc
      simp only [call]
      generalize hit : mufdwIterateForeignScan ex = res at h1 h2
      obtain ⟨o, ex2⟩ := res
      simp only at h1 h2
      subst h1
      exact ⟨rs, h2⟩
  | ReScan =>
    obtain ⟨name, hstate, _⟩ := hc
    exact rescan_of_ok env ex q (some name) hstate hok
  | End => exact ⟨pending, hc⟩

theorem run_of_ok (calls : List (Remote × ScanCall)) (ex : Exec) (q : String)
    (h : ∃ pending, HasCursor ex q pending) (hok : (run calls ex).1 = .ok ()) :
    ∃ pending, HasCursor (run calls ex).2 q pending := by
  induction calls generalizing ex with
  | nil => exact h
  | cons ec rest ih =>
    obtain ⟨env, c⟩ := ec
    have hstep := call_of_ok env c ex q h
    simp only [run] at hok ⊢
    generalize hcall : call env c ex = res at hstep hok
    obtain ⟨o, ex2⟩ := res
    cases o with
    | ok u => exact ih ex2 (hstep rfl) hok
    | error e => simp at hok
    | fault => simp at hok

/-! ## Handle invariant lemmas -/

theorem find_portal_none_of_not_mem (name : Nat) (ps : List Portal)
    (h : name ∉ portal_names ps) : find_portal name ps = none := by
  induction ps with
  | nil => rfl
  | cons p rest ih =>
    simp only [portal_names, List.map_cons, List.mem_cons, not_or] at h
    have hne : ¬ p.name = name := fun heq => h.1 heq.symm
    simp only [find_portal, hne, if_false]
    exact ih h.2

theorem portal_names_advance (name : Nat) (ps : List Portal) :
    portal_names (advance_portal name ps) = portal_names ps := by
  induction ps with
  | nil => rfl
  | cons p rest ih =>
    unfold advance_portal
    split
    · rfl
    · simp only [portal_names, List.map_cons] at ih ⊢
      rw [ih]

theorem portal_names_drop (name : Nat) (ps : List Portal) :
    (portal_names (drop_portal name ps)).Sublist (portal_names ps) := by
  induction ps with
  | nil => exact List.Sublist.refl _
  | cons p rest ih =>
    unfold drop_portal
    split
    · exact List.sublist_cons_self _ _
    · exact List.Sublist.cons₂ _ ih

theorem find_drop_portal (name : Nat) (ps : List Portal) (h : (portal_names ps).Nodup) :
    find_portal name (drop_portal name ps) = none := by
  induction ps with
  | nil => rfl
  | cons p rest ih =>
    have hcons : (p.name :: portal_names rest).Nodup := h
    rw [List.nodup_cons] at hcons
    unfold drop_portal
    split
    · rename_i heq
      apply find_portal_none_of_not_mem
      rw [← heq]
      exact hcons.1
    · rename_i hne
      simp only [find_portal, hne, if_false]
      exact ih hcons.2

theorem le_foldr_max (ps : List Portal) (c : Nat) :
    ∀ p ∈ ps, p.name ≤ ps.foldr (fun p m => max p.name m) c := by
  induction ps with
  | nil => simp
  | cons x rest ih =>
    intro p hp
    simp only [List.foldr_cons]
    rcases List.mem_cons.mp hp with rfl | hp
    · exact le_max_left _ _
    · exact le_trans (ih p hp) (le_max_right _ _)

theorem fresh_name_not_mem (spi : SPI) : fresh_name spi ∉ portal_names spi.portals := by
  intro hmem
  simp only [portal_names, List.mem_map] at hmem
  obtain ⟨p, hp, hname⟩ := hmem
  have hle := le_foldr_max spi.portals spi.unnamed_portal_count p hp
  unfold fresh_name at hname
  omega

theorem open_new_cursor_distinct (env : Remote) (q : String) (spi : SPI)
    (h : RegistryDistinct spi) : RegistryDistinct (open_new_cursor env q spi).2 := by
  rcases open_new_cursor_cases env q spi with ⟨_, heq⟩ | ⟨_, _, heq⟩ | ⟨_, rows, _, heq⟩
  · rw [heq]; exact h
  · rw [heq]; exact h
  · rw [heq]
    exact List.nodup_cons.mpr ⟨fresh_name_not_mem spi, h⟩

theorem close_old_cursor_distinct (fsstate : mufdwScanState) (spi : SPI)
    (h : RegistryDistinct spi) : RegistryDistinct (close_old_cursor fsstate spi) := by
  rcases close_old_cursor_cases fsstate spi with
    ⟨_, heq⟩ | ⟨name, _, _, heq⟩ | ⟨name, portal, _, _, heq⟩
  · rw [heq]; exact h
  · rw [heq]; exact h
  · rw [heq]
    exact List.Nodup.sublist (portal_names_drop name spi.portals) h

theorem iterate_distinct (ex : Exec) (h : RegistryDistinct ex.spi) :
    RegistryDistinct (mufdwIterateForeignScan ex).2.spi := by
  cases hstate : ex.node.fdw_state with
  | none =>
    simp only [mufdwIterateForeignScan, hstate]
    exact h
  | some fsstate =>
    rw [exec_eta ex fsstate hstate]
    rcases iterate_cases ex.node fsstate ex.spi with
      ⟨_, heq⟩ | ⟨portal, _, _, heq⟩ | ⟨portal, row, rest, _, _, heq⟩
    · rw [heq]; exact h
    · rw [heq]
      show (portal_names (advance_portal portal.name ex.spi.portals)).Nodup
      rw [portal_names_advance]; exact h
    · rw [heq]
      show (portal_names (advance_portal portal.name ex.spi.portals)).Nodup
      rw [portal_names_advance]; exact h

theorem rescan_spi (env : Remote) (ex : Exec) (fsstate : mufdwScanState)
    (hstate : ex.node.fdw_state = some fsstate) :
    (mufdwReScanForeignScan env ex).2.spi =
      (open_new_cursor env fsstate.query (close_old_cursor fsstate ex.spi)).2 := by
  simp only [mufdwReScanForeignScan, hstate]
  generalize open_new_cursor env fsstate.query (close_old_cursor fsstate ex.spi) = res
  obtain ⟨o, spi2⟩ := res
  cases o <;> rfl

theorem rescan_distinct (env : Remote) (ex : Exec) (h : RegistryDistinct ex.spi) :
    RegistryDistinct (mufdwReScanForeignScan env ex).2.spi := by
  cases hstate : ex.node.fdw_state with
  | none =>
    simp only [mufdwReScanForeignScan, hstate]
    exact h
  | some fsstate =>
    rw [rescan_spi env ex fsstate hstate]
    exact open_new_cursor_distinct _ _ _ (close_old_cursor_distinct fsstate ex.spi h)

theorem begin_distinct (host : Host) (env : Remote) (ex : Exec) (eflags : Nat)
    (h : RegistryDistinct ex.spi) :
    RegistryDistinct (mufdwBeginForeignScan host env ex eflags).2.spi := by
  unfold mufdwBeginForeignScan
  split
  · exact h
  · cases hplan : ex.node.fdw_private with
    | nil => exact h
    | cons q rest =>
      have hopen := open_new_cursor_distinct env q ex.spi h
      simp only
      generalize open_new_cursor env q ex.spi = res at hopen
      obtain ⟨o, spi2⟩ := res
      cases o <;> exact hopen

theorem call_iterate_snd (env : Remote) (ex : Exec) :
    (call env .Iterate ex).2 = (mufdwIterateForeignScan ex).2 := by
  simp only [call]
  generalize mufdwIterateForeignScan ex = res
  obtain ⟨o, ex2⟩ := res
  cases o <;> rfl

theorem call_distinct (env : Remote) (c : ScanCall) (ex : Exec)
    (h : RegistryDistinct ex.spi) : RegistryDistinct (call env c ex).2.spi := by
  cases c with
  | Iterate =>
    rw [call_iterate_snd]
    exact iterate_distinct ex h
  | ReScan => exact rescan_distinct env ex h
  | End => exact h

theorem run_distinct (calls : List (Remote × ScanCall)) (ex : Exec)
    (h : RegistryDistinct ex.spi) : RegistryDistinct (run calls ex).2.spi := by
  induction calls generalizing ex with
  | nil => exact h
  | cons ec rest ih =>
    obtain ⟨env, c⟩ := ec
    have hstep := call_distinct env c ex h
    simp only [run]
    generalize call env c ex = res at hstep
    obtain ⟨o, ex2⟩ := res
    cases o with
    | ok u => exact ih ex2 hstep
    | error e => exact hstep
    | fault => exact hstep

theorem iterate_handle_valid (ex : Exec) (h : HandleValid ex) :
    HandleValid (mufdwIterateForeignScan ex).2 := by
  cases hstate : ex.node.fdw_state with
  | none =>
    simp only [mufdwIterateForeignScan, hstate]
    exact h
  | some fsstate =>
    have hv := h fsstate hstate
    rw [exec_eta ex fsstate hstate]
    rcases iterate_cases ex.node fsstate ex.spi with
      ⟨_, heq⟩ | ⟨portal, hsome, _, heq⟩ | ⟨portal, row, rest, hsome, _, heq⟩
    · rw [heq]
      intro fs hfs name hname
      cases hfs
      exact hv name hname
    · rw [heq]
      intro fs hfs name hname
      cases hfs
      obtain ⟨hpn, hf⟩ := lookup_handle_some fsstate ex.spi portal hsome
      rw [hpn] at hname
      cases hname
      obtain ⟨p2, hf2, hq2⟩ := hv portal.name hpn
      rw [hf] at hf2
      cases hf2
      exact ⟨_, find_advance_portal portal.name ex.spi.portals portal hf, hq2⟩
    · rw [heq]
      intro fs hfs name hname
      cases hfs
      obtain ⟨hpn, hf⟩ := lookup_handle_some fsstate ex.spi portal hsome
      rw [hpn] at hname
      cases hname
      obtain ⟨p2, hf2, hq2⟩ := hv portal.name hpn
      rw [hf] at hf2
      cases hf2
      exact ⟨_, find_advance_portal portal.name ex.spi.portals portal hf, hq2⟩

theorem call_handle_valid (env : Remote) (c : ScanCall) (ex : Exec) (h : HandleValid ex)
    (hok : (call env c ex).1 = .ok ()) : HandleValid (call env c ex).2 := by
  cases c with
  | Iterate =>
    rw [call_iterate_snd]
    exact iterate_handle_valid ex h
  | ReScan =>
    cases hstate : ex.node.fdw_state with
    | none => simp [call, mufdwReScanForeignScan, hstate] at hok
    | some fsstate =>
      obtain ⟨q, handle⟩ := fsstate
      obtain ⟨rows, hc⟩ := rescan_of_ok env ex q handle hstate hok
      exact handle_valid_of_cursor _ q rows hc
  | End => exact h

theorem run_handle_valid (calls : List (Remote × ScanCall)) (ex : Exec) (h : HandleValid ex)
    (hok : (run calls ex).1 = .ok ()) : HandleValid (run calls ex).2 := by
  induction calls generalizing ex with
  | nil => exact h
  | cons ec rest ih =>
    obtain ⟨env, c⟩ := ec
    have hstep := call_handle_valid env c ex h
    simp only [run] at hok ⊢
    generalize call env c ex = res at hstep hok
    obtain ⟨o, ex2⟩ := res
    cases o with
    | ok u => exact ih ex2 (hstep rfl) hok
    | error e => simp at hok
    | fault => simp at hok

theorem begin_handle_valid (host : Host) (env : Remote) (ex : Exec) (eflags : Nat)
    (hinit : ex.node.fdw_state = none) :
    HandleValid (mufdwBeginForeignScan host env ex eflags).2 := by
  have hex : HandleValid ex := by
    intro fs hfs
    rw [hinit] at hfs
    cases hfs
  unfold mufdwBeginForeignScan
  split
  · exact hex
  · cases hplan : ex.node.fdw_private with
    | nil => exact hex
    | cons q rest =>
      rcases open_new_cursor_cases env q ex.spi with
        ⟨_, heq⟩ | ⟨_, _, heq⟩ | ⟨hp, rows, ho, heq⟩
      · simp only [heq]
        intro fs hfs name hname
        cases hfs
        cases hname
      · simp only [heq]
        intro fs hfs name hname
        cases hfs
        cases hname
      · simp only [heq]
        intro fs hfs name hname
        cases hfs
        cases hname
        exact ⟨⟨fresh_name ex.spi, q, rows⟩, by simp [find_portal], rfl⟩

theorem rescan_failure_state (env : Remote) (ex : Exec) (fsstate : mufdwScanState)
    (name : Nat) (hstate : ex.node.fdw_state = some fsstate)
    (hname : fsstate.portal_name = some name) (hwf : RegistryDistinct ex.spi)
    (hfail : (mufdwReScanForeignScan env ex).1.isError = true) :
    (mufdwReScanForeignScan env ex).2.node = ex.node ∧
      find_portal name (mufdwReScanForeignScan env ex).2.spi.portals = none ∧
      ¬ HandleValid (mufdwReScanForeignScan env ex).2 := by
  have hclosed : find_portal name (close_old_cursor fsstate ex.spi).portals = none := by
    rcases close_old_cursor_cases fsstate ex.spi with
      ⟨hn, _⟩ | ⟨n, hn, hf, heq⟩ | ⟨n, portal, hn, _, heq⟩
    · rw [hn] at hname
      cases hname
    · rw [hn] at hname
      cases hname
      rw [heq]
      exact hf
    · rw [hn] at hname
      cases hname
      rw [heq]
      exact find_drop_portal name ex.spi.portals hwf
  have hkey : (mufdwReScanForeignScan env ex).2.node = ex.node ∧
      find_portal name (mufdwReScanForeignScan env ex).2.spi.portals = none := by
    rcases open_new_cursor_cases env fsstate.query (close_old_cursor fsstate ex.spi) with
      ⟨_, heq⟩ | ⟨_, _, heq⟩ | ⟨_, rows, _, heq⟩
    · simp only [mufdwReScanForeignScan, hstate, heq]
      exact ⟨trivial, hclosed⟩
    · simp only [mufdwReScanForeignScan, hstate, heq]
      exact ⟨trivial, hclosed⟩
    · simp [mufdwReScanForeignScan, hstate, heq, Outcome.isError] at hfail
  refine ⟨hkey.1, hkey.2, ?_⟩
  intro hv
  have hst : (mufdwReScanForeignScan env ex).2.node.fdw_state = some fsstate := by
    rw [hkey.1]; exact hstate
  obtain ⟨portal, hfind, _⟩ := hv fsstate hst name hname
  rw [hkey.2] at hfind
  cases hfind

/-! ## Executor theorems -/

/-- C5: when Begin is not explain-only and the remote query yields the rows
`r1 .. rn`, Begin returns, the first `n` Iterate calls return `r1 .. rn` in
that order, one row per call, and call `n + 1` returns end-of-stream. -/
theorem scan_returns_rows_in_order (host : Host) (env : Remote) (ex : Exec) (eflags : Nat)
    (q : String) (rest : List String) (rows : List Row)
    (hflag : eflags &&& host.EXEC_FLAG_EXPLAIN_ONLY = 0)
    (hplan : ex.node.fdw_private = q :: rest)
    (hp : env.prepare q = true) (ho : env.cursor_open q = some rows) :
    (mufdwBeginForeignScan host env ex eflags).1 = .ok () ∧
    iterates (rows.length + 1) (mufdwBeginForeignScan host env ex eflags).2 =
      rows.map (fun r => Outcome.ok (SlotPtr.slot (some r))) ++ [.ok .null] ∧
    TupIsNull .null = true ∧ ∀ r, TupIsNull (.slot (some r)) = false := by
  obtain ⟨h1, h2⟩ := begin_cursor host env ex eflags q rest rows hflag hplan hp ho
  exact ⟨h1, iterates_cursor q rows _ h2, rfl, fun _ => rfl⟩

/-- C5 (witness): with three remote rows, three Iterate calls return the rows
and the fourth returns end-of-stream. -/
theorem scan_returns_rows_in_order_witness :
    (0 &&& stockHost.EXEC_FLAG_EXPLAIN_ONLY = 0) ∧
    itemsExec.node.fdw_private = [itemsQuery] ∧
    itemsRemote.prepare itemsQuery = true ∧
    itemsRemote.cursor_open itemsQuery = some threeRows ∧
    iterates 4 (mufdwBeginForeignScan stockHost itemsRemote itemsExec 0).2 =
      [.ok (.slot (some [some "1"])), .ok (.slot (some [some "2"])),
        .ok (.slot (some [some "3"])), .ok .null] :=
  ⟨by decide, rfl, rfl, rfl,
    (scan_returns_rows_in_order stockHost itemsRemote itemsExec 0 itemsQuery [] threeRows
      (by decide) rfl rfl rfl).2.1⟩

/-- C6: from the state reached after Begin by any sequence of Iterate, ReScan
and End calls, one or more further ReScan calls return, and draining Iterate
afterwards yields the rows of the remote query in order, the same sequence as
a fresh Begin followed by a drain over the same remote side; the Iterate calls
after the ReScan start again with the first row. -/
theorem rescan_restarts_scan (host : Host) (env : Remote) (ex fresh : Exec) (eflags : Nat)
    (q : String) (rest rest2 : List String) (rows : List Row) (calls : List ScanCall)
    (k fuel : Nat)
    (hflag : eflags &&& host.EXEC_FLAG_EXPLAIN_ONLY = 0)
    (hplan : ex.node.fdw_private = q :: rest)
    (hfresh : fresh.node.fdw_private = q :: rest2)
    (hp : env.prepare q = true) (ho : env.cursor_open q = some rows)
    (hfuel : rows.length < fuel) :
    (run (List.replicate (k + 1) (env, ScanCall.ReScan))
      (run (calls.map (fun c => (env, c)))
        (mufdwBeginForeignScan host env ex eflags).2).2).1 = .ok () ∧
    drain fuel (run (List.replicate (k + 1) (env, ScanCall.ReScan))
      (run (calls.map (fun c => (env, c)))
        (mufdwBeginForeignScan host env ex eflags).2).2).2 =
      drain fuel (mufdwBeginForeignScan host env fresh eflags).2 ∧
    drain fuel (run (List.replicate (k + 1) (env, ScanCall.ReScan))
      (run (calls.map (fun c => (env, c)))
        (mufdwBeginForeignScan host env ex eflags).2).2).2 = some rows ∧
    iterates (rows.length + 1) (run (List.replicate (k + 1) (env, ScanCall.ReScan))
      (run (calls.map (fun c => (env, c)))
        (mufdwBeginForeignScan host env ex eflags).2).2).2 =
      rows.map (fun r => Outcome.ok (SlotPtr.slot (some r))) ++ [.ok .null] := by
  obtain ⟨_, hb⟩ := begin_cursor host env ex eflags q rest rows hflag hplan hp ho
  obtain ⟨_, hf⟩ := begin_cursor host env fresh eflags q rest2 rows hflag hfresh hp ho
  obtain ⟨_, hr⟩ := run_cursor env calls _ q rows hp ho ⟨rows, hb⟩
  obtain ⟨hok, hk⟩ := rescans_cursor env k _ q rows hp ho hr
  have hd := drain_cursor q rows _ fuel hk hfuel
  refine ⟨hok, ?_, hd, iterates_cursor q rows _ hk⟩
  rw [hd, drain_cursor q rows _ fuel hf hfuel]

/-- C6 (witness): with three remote rows, a ReScan after the second row makes
the following Iterate calls return rows 1, 2, 3 and end-of-stream, and a drain
yields the three rows. -/
theorem rescan_restarts_scan_witness :
    (0 &&& stockHost.EXEC_FLAG_EXPLAIN_ONLY = 0) ∧
    itemsExec.node.fdw_private = [itemsQuery] ∧
    itemsRemote.prepare itemsQuery = true ∧
    itemsRemote.cursor_open itemsQuery = some threeRows ∧
    threeRows.length < 4 ∧
    drain 4 (run [(itemsRemote, ScanCall.ReScan)]
      (run [(itemsRemote, ScanCall.Iterate), (itemsRemote, ScanCall.Iterate)]
        (mufdwBeginForeignScan stockHost itemsRemote itemsExec 0).2).2).2 = some threeRows ∧
    iterates 4 (run [(itemsRemote, ScanCall.ReScan)]
      (run [(itemsRemote, ScanCall.Iterate), (itemsRemote, ScanCall.Iterate)]
        (mufdwBeginForeignScan stockHost itemsRemote itemsExec 0).2).2).2 =
      [.ok (.slot (some [some "1"])), .ok (.slot (some [some "2"])),
        .ok (.slot (some [some "3"])), .ok .null] :=
  ⟨by decide, rfl, rfl, rfl, by decide,
    (rescan_restarts_scan stockHost itemsRemote itemsExec itemsExec 0 itemsQuery [] []
      threeRows [.Iterate, .Iterate] 0 4 (by decide) rfl rfl rfl rfl (by decide)).2.2.1,
    (rescan_restarts_scan stockHost itemsRemote itemsExec itemsExec 0 itemsQuery [] []
      threeRows [.Iterate, .Iterate] 0 4 (by decide) rfl rfl rfl rfl (by decide)).2.2.2⟩

/-- C7: once an Iterate call has returned end-of-stream, whether through a
fetch of zero rows or through an absent cursor, every later Iterate call
without a ReScan in between returns normally with end-of-stream: no error and
no row. -/
theorem end_of_stream_is_stable (ex : Exec) (s : SlotPtr)
    (h : (mufdwIterateForeignScan ex).1 = .ok s) (hs : TupIsNull s = true) (n : Nat) :
    ∀ o ∈ iterates n (mufdwIterateForeignScan ex).2, ∃ s2, o = .ok s2 ∧ TupIsNull s2 = true := by
  have hex := exhausted_of_end_of_stream ex s h hs
  exact iterates_of_exhausted n _ (iterate_of_exhausted ex hex).2

/-- C7 (witness): after the three rows are fetched the next Iterate returns
end-of-stream, and so do the three calls after it. -/
theorem end_of_stream_is_stable_witness :
    (mufdwIterateForeignScan drainedExec).1 = .ok .null ∧ TupIsNull .null = true ∧
    iterates 3 (mufdwIterateForeignScan drainedExec).2 = [.ok .null, .ok .null, .ok .null] ∧
    ∀ o ∈ iterates 3 (mufdwIterateForeignScan drainedExec).2,
      ∃ s2, o = .ok s2 ∧ TupIsNull s2 = true :=
  ⟨by decide, rfl, by decide,
    end_of_stream_is_stable drainedExec .null (by decide) rfl 3⟩

/-- C8 (counterexample): when `SPI_prepare` fails, `open_new_cursor` raises
with one `SPI_connect` and no `SPI_finish` in the log, and the session depth
is 1 where it was 0 before the call. -/
theorem open_new_cursor_failure_skips_finish :
    (open_new_cursor brokenRemote itemsQuery idleSPI).1.isError = true ∧
    (open_new_cursor brokenRemote itemsQuery idleSPI).2.log =
      [.connect, .prepare itemsQuery] ∧
    connects (open_new_cursor brokenRemote itemsQuery idleSPI).2.log = 1 ∧
    finishes (open_new_cursor brokenRemote itemsQuery idleSPI).2.log = 0 ∧
    idleSPI.depth = 0 ∧
    (open_new_cursor brokenRemote itemsQuery idleSPI).2.depth = 1 := by
  decide

/-- C8 (amended): on every path that returns, `open_new_cursor`,
`close_old_cursor` and Iterate bracket their bridge calls by one `SPI_connect`
first and one `SPI_finish` last (`close_old_cursor` makes no bridge call for a
NULL handle), and the session depth after the call is the depth before it;
this covers the early end-of-stream return and the absent-cursor return of
Iterate. On the two paths of `open_new_cursor` that raise, for a failed
prepare and for a failed cursor-open, the log ends after the failing call
without `SPI_finish` and the depth is one more than before. -/
theorem bridge_calls_are_bracketed (env : Remote) (query : String) (fsstate : mufdwScanState)
    (node : ForeignScanState) (spi : SPI) :
    ((env.prepare query = false ∧
        (open_new_cursor env query spi).1.isError = true ∧
        (open_new_cursor env query spi).2.log = spi.log ++ [.connect, .prepare query] ∧
        (open_new_cursor env query spi).2.depth = spi.depth + 1) ∨
      (env.prepare query = true ∧ env.cursor_open query = none ∧
        (open_new_cursor env query spi).1.isError = true ∧
        (open_new_cursor env query spi).2.log =
          spi.log ++ [.connect, .prepare query, .cursor_open query] ∧
        (open_new_cursor env query spi).2.depth = spi.depth + 1) ∨
      (env.prepare query = true ∧ (env.cursor_open query).isSome = true ∧
        (open_new_cursor env query spi).1.isOk = true ∧
        (open_new_cursor env query spi).2.log =
          spi.log ++ [.connect, .prepare query, .cursor_open query, .finish] ∧
        (open_new_cursor env query spi).2.depth = spi.depth)) ∧
    ((close_old_cursor fsstate spi).depth = spi.depth ∧
      ((fsstate.portal_name = none ∧ (close_old_cursor fsstate spi).log = spi.log) ∨
        (∃ name, fsstate.portal_name = some name ∧
          ((close_old_cursor fsstate spi).log =
              spi.log ++ [.connect, .cursor_find (some name), .finish] ∨
            (close_old_cursor fsstate spi).log =
              spi.log ++ [.connect, .cursor_find (some name), .cursor_close name, .finish])))) ∧
    ((mufdwIterateForeignScan ⟨{ node with fdw_state := some fsstate }, spi⟩).1.isOk = true ∧
      (mufdwIterateForeignScan ⟨{ node with fdw_state := some fsstate }, spi⟩).2.spi.depth =
        spi.depth ∧
      ((mufdwIterateForeignScan ⟨{ node with fdw_state := some fsstate }, spi⟩).2.spi.log =
          spi.log ++ [.connect, .cursor_find fsstate.portal_name, .finish] ∨
        ∃ name,
          (mufdwIterateForeignScan ⟨{ node with fdw_state := some fsstate }, spi⟩).2.spi.log =
            spi.log ++ [.connect, .cursor_find fsstate.portal_name, .cursor_fetch name,
              .finish])) := by
  refine ⟨?_, ?_, ?_⟩
  · rcases open_new_cursor_cases env query spi with
      ⟨hp, heq⟩ | ⟨hp, ho, heq⟩ | ⟨hp, rows, ho, heq⟩
    · left
      rw [heq]
      exact ⟨hp, rfl, rfl, rfl⟩
    · right; left
      rw [heq]
      exact ⟨hp, ho, rfl, rfl, rfl⟩
    · right; right
      rw [heq]
      exact ⟨hp, by rw [ho]; rfl, rfl, rfl, rfl⟩
  · rcases close_old_cursor_cases fsstate spi with
      ⟨hn, heq⟩ | ⟨name, hn, _, heq⟩ | ⟨name, portal, hn, _, heq⟩
    · rw [heq]
      exact ⟨rfl, Or.inl ⟨hn, rfl⟩⟩
    · rw [heq]
      exact ⟨rfl, Or.inr ⟨name, hn, Or.inl rfl⟩⟩
    · rw [heq]
      exact ⟨rfl, Or.inr ⟨name, hn, Or.inr rfl⟩⟩
  · rcases iterate_cases node fsstate spi with
      ⟨_, heq⟩ | ⟨portal, _, _, heq⟩ | ⟨portal, row, rest, _, _, heq⟩
    · rw [heq]
      exact ⟨rfl, rfl, Or.inl rfl⟩
    · rw [heq]
      exact ⟨rfl, rfl, Or.inr ⟨portal.name, rfl⟩⟩
    · rw [heq]
      exact ⟨rfl, rfl, Or.inr ⟨portal.name, rfl⟩⟩

/-- C9 (counterexample): after a Begin that returns and a ReScan whose prepare
step fails, the handle of the scan state is non-null and names cursor 1, which
the ReScan has closed: no cursor of that name is registered with the bridge. -/
theorem failed_rescan_leaves_stale_handle :
    (mufdwBeginForeignScan stockHost itemsRemote itemsExec 0).1 = .ok () ∧
    (mufdwReScanForeignScan brokenRemote begunExec).1.isError = true ∧
    staleExec.node.fdw_state = some ⟨itemsQuery, some 1⟩ ∧
    find_portal 1 staleExec.spi.portals = none ∧
    ¬ HandleValid staleExec := by
  refine ⟨by decide, by decide, by decide, by decide, ?_⟩
  intro h
  have hstate : staleExec.node.fdw_state = some ⟨itemsQuery, some 1⟩ := by decide
  obtain ⟨portal, hfind, _⟩ := h _ hstate 1 rfl
  have hnone : find_portal 1 staleExec.spi.portals = none := by decide
  rw [hnone] at hfind
  cases hfind

/-- C9 (amended): in every state reached from Begin on a fresh scan node,
whether Begin returns, raises or is explain-only, through any sequence of
Iterate, ReScan and End calls that all return, against whatever remote side
each call meets, a non-null cursor handle names a cursor that is open in the
bridge and was opened for the query of the scan state; after a returning Begin
that is not explain-only the handle is non-null. When the cursor names
registered before Begin are distinct, a ReScan that raises from such a state
leaves the scan node as it was: a non-null handle then names no open cursor,
so the invariant fails in the state after the failed ReScan. -/
theorem handle_valid_while_calls_return (host : Host) (env : Remote) (ex : Exec)
    (eflags : Nat) (calls : List (Remote × ScanCall))
    (hinit : ex.node.fdw_state = none)
    (hrun : (run calls (mufdwBeginForeignScan host env ex eflags).2).1 = .ok ()) :
    HandleValid (run calls (mufdwBeginForeignScan host env ex eflags).2).2 ∧
    (eflags &&& host.EXEC_FLAG_EXPLAIN_ONLY = 0 →
      (mufdwBeginForeignScan host env ex eflags).1 = .ok () →
      ∃ q pending,
        HasCursor (run calls (mufdwBeginForeignScan host env ex eflags).2).2 q pending) ∧
    (RegistryDistinct ex.spi →
      ∀ (env2 : Remote) (fsstate : mufdwScanState) (name : Nat),
        (run calls (mufdwBeginForeignScan host env ex eflags).2).2.node.fdw_state =
          some fsstate →
        fsstate.portal_name = some name →
        (mufdwReScanForeignScan env2
          (run calls (mufdwBeginForeignScan host env ex eflags).2).2).1.isError = true →
        (mufdwReScanForeignScan env2
            (run calls (mufdwBeginForeignScan host env ex eflags).2).2).2.node =
          (run calls (mufdwBeginForeignScan host env ex eflags).2).2.node ∧
        find_portal name (mufdwReScanForeignScan env2
          (run calls (mufdwBeginForeignScan host env ex eflags).2).2).2.spi.portals = none ∧
        ¬ HandleValid (mufdwReScanForeignScan env2
          (run calls (mufdwBeginForeignScan host env ex eflags).2).2).2) := by
  refine ⟨?_, ?_, ?_⟩
  · exact run_handle_valid calls _ (begin_handle_valid host env ex eflags hinit) hrun
  · intro hflag hbegin
    obtain ⟨q, rows, hb⟩ := begin_of_ok host env ex eflags hflag hbegin
    obtain ⟨pending, hc⟩ := run_of_ok calls _ q ⟨rows, hb⟩ hrun
    exact ⟨q, pending, hc⟩
  · intro hwf env2 fsstate name hstate hname hfail
    have hd := run_distinct calls _ (begin_distinct host env ex eflags hwf)
    exact rescan_failure_state env2 _ fsstate name hstate hname hd hfail

/-- C9 (witness): Begin, Iterate, ReScan and End on the three-row remote side
all return and leave a valid, non-null handle for the query; a further ReScan
whose prepare step fails leaves handle 2 in the scan state with no cursor of
that name open. -/
theorem handle_valid_while_calls_return_witness :
    itemsExec.node.fdw_state = none ∧
    (run [(itemsRemote, .Iterate), (itemsRemote, .ReScan), (itemsRemote, .End)]
      (mufdwBeginForeignScan stockHost itemsRemote itemsExec 0).2).1 = .ok () ∧
    (0 &&& stockHost.EXEC_FLAG_EXPLAIN_ONLY = 0) ∧
    (mufdwBeginForeignScan stockHost itemsRemote itemsExec 0).1 = .ok () ∧
    RegistryDistinct itemsExec.spi ∧
    (run [(itemsRemote, .Iterate), (itemsRemote, .ReScan), (itemsRemote, .End)]
      (mufdwBeginForeignScan stockHost itemsRemote itemsExec 0).2).2.node.fdw_state =
        some ⟨itemsQuery, some 2⟩ ∧
    (mufdwReScanForeignScan brokenRemote
      (run [(itemsRemote, .Iterate), (itemsRemote, .ReScan), (itemsRemote, .End)]
        (mufdwBeginForeignScan stockHost itemsRemote itemsExec 0).2).2).1.isError = true ∧
    HandleValid (run [(itemsRemote, .Iterate), (itemsRemote, .ReScan), (itemsRemote, .End)]
      (mufdwBeginForeignScan stockHost itemsRemote itemsExec 0).2).2 ∧
    (∃ q pending,
      HasCursor (run [(itemsRemote, .Iterate), (itemsRemote, .ReScan), (itemsRemote, .End)]
        (mufdwBeginForeignScan stockHost itemsRemote itemsExec 0).2).2 q pending) ∧
    ¬ HandleValid (mufdwReScanForeignScan brokenRemote
      (run [(itemsRemote, .Iterate), (itemsRemote, .ReScan), (itemsRemote, .End)]
        (mufdwBeginForeignScan stockHost itemsRemote itemsExec 0).2).2).2 :=
  ⟨rfl, by decide, by decide, by decide, List.nodup_nil, by decide, by decide,
    (handle_valid_while_calls_return stockHost itemsRemote itemsExec 0
      [(itemsRemote, .Iterate), (itemsRemote, .ReScan), (itemsRemote, .End)]
      rfl (by decide)).1,
    (handle_valid_while_calls_return stockHost itemsRemote itemsExec 0
      [(itemsRemote, .Iterate), (itemsRemote, .ReScan), (itemsRemote, .End)]
      rfl (by decide)).2.1 (by decide) (by decide),
    ((handle_valid_while_calls_return stockHost itemsRemote itemsExec 0
      [(itemsRemote, .Iterate), (itemsRemote, .ReScan), (itemsRemote, .End)]
      rfl (by decide)).2.2 List.nodup_nil brokenRemote ⟨itemsQuery, some 2⟩ 2
      (by decide) rfl (by decide)).2.2⟩

end Mufdw
